import Mathlib

/-!
Shallow embedding of the retrieval pipeline of the Shivohm AI chatbot
(`utils/text_processor.py`, `services/retrieval_service.py`,
`database/qdrant_client.py`, `config/settings.py`) together with proofs of
the behavioural properties stated in the specification.

Pure Python functions become Lean functions; the external collaborators
(document store, embedding model, vector index, tokenizer) are represented
by explicit parameters constrained only by their interface contracts; a
Python function that can raise becomes a function into `Except`.
-/

namespace Shivohm

/-- Embedding of the RAG-related fields of `config/settings.py`
(`Settings`): only the numeric retrieval configuration is relevant to the
pipeline. -/
structure Settings where
  TOP_K_RESULTS : Nat := 5
  MAX_CONTEXT_LENGTH : Nat := 3000
  CHUNK_SIZE : Nat := 500
  CHUNK_OVERLAP : Nat := 50

/-- The module-level `settings = Settings()` object with its defaults. -/
def settings : Settings := {}

/-- Semantics of the Python idiom `x or d` used for optional numeric
parameters (`chunk_size = chunk_size or settings.CHUNK_SIZE`, etc.):
`None` and `0` are falsy, so both select the default. -/
def pyOr (x : Option Nat) (d : Nat) : Nat :=
  match x with
  | none => d
  | some v => if v = 0 then d else v

/-- Helper for `pySplit`: scan the characters, accumulating the current
word (in reverse); whitespace ends the current word, and empty words are
never produced. -/
def pySplitAux : List Char → List Char → List String
  | [], acc => if acc = [] then [] else [String.mk acc.reverse]
  | c :: cs, acc =>
    if c.isWhitespace then
      if acc = [] then pySplitAux cs []
      else String.mk acc.reverse :: pySplitAux cs []
    else pySplitAux cs (c :: acc)

/-- Semantics of Python `text.split()` (no separator): split on runs of
whitespace, discarding empty pieces. -/
def pySplit (text : String) : List String :=
  pySplitAux text.data []

/-- Iteration semantics of Python `range(start, stop, step)` for a positive
step, with explicit fuel (the loop advances `start` by `step ≥ 1` each
time, so `stop - start` iterations always suffice). -/
def pyRangeAux (stop step : Nat) : Nat → Nat → List Nat
  | _, 0 => []
  | start, fuel + 1 =>
    if start < stop then start :: pyRangeAux stop step (start + step) fuel
    else []

/-- Python `range(start, stop, step)` for a positive step. -/
def pyRange (start stop step : Nat) : List Nat :=
  pyRangeAux stop step start (stop - start)

/-- Embedding of `TextProcessor.chunk_text`.  The two optional parameters
use Python default-or semantics (`chunk_size or settings.CHUNK_SIZE`,
`overlap or settings.CHUNK_OVERLAP`).  The Python loop is
`for i in range(0, len(words), chunk_size - overlap)` where the step is an
arbitrary-precision integer: `range` raises `ValueError` when the step is
zero and yields nothing when the step is negative (since start `0 ≤` stop);
each chunk is `" ".join(words[i:i + chunk_size])` and is appended only if
non-empty. -/
def chunk_text (text : String)
    (chunk_size : Option Nat := none) (overlap : Option Nat := none) :
    Except String (List String) :=
  let cs := pyOr chunk_size settings.CHUNK_SIZE
  let ov := pyOr overlap settings.CHUNK_OVERLAP
  let step : Int := (cs : Int) - (ov : Int)
  if step = 0 then
    .error "ValueError: range() arg 3 must not be zero"
  else
    let words := pySplit text
    let idxs : List Nat :=
      if step < 0 then [] else pyRange 0 words.length step.toNat
    .ok ((idxs.map fun i =>
      String.intercalate " " ((words.drop i).take cs)).filter
        fun c => c ≠ "")

instance {ε α : Type} [DecidableEq ε] [DecidableEq α] : DecidableEq (Except ε α) :=
  fun a b =>
    match a, b with
    | .ok x, .ok y => decidable_of_iff (x = y) (by simp)
    | .error x, .error y => decidable_of_iff (x = y) (by simp)
    | .ok _, .error _ => isFalse (by simp)
    | .error _, .ok _ => isFalse (by simp)

/-- The tokenizer (tiktoken's `encoding_for_model(settings.CHAT_MODEL)`)
is an external collaborator; the core uses only its `encode` and `decode`
functions (spec section 6: `count(text) → int`, `encode/decode` round-trip
sufficient to support prefix truncation). -/
structure Encoding where
  encode : String → List Nat
  decode : List Nat → String

/-- Embedding of `TextProcessor.count_tokens`:
`len(self.encoding.encode(text))`. -/
def count_tokens (enc : Encoding) (text : String) : Nat :=
  (enc.encode text).length

/-- Embedding of `TextProcessor.truncate_to_token_limit`: return the text
unchanged when its token count fits, otherwise decode the first
`max_tokens` tokens. -/
def truncate_to_token_limit (enc : Encoding) (text : String)
    (max_tokens : Nat) : String :=
  let tokens := enc.encode text
  if tokens.length ≤ max_tokens then text
  else enc.decode (tokens.take max_tokens)

/-- A concrete character-level encoding (one token per character) used to
witness the tokenizer-dependent theorems. -/
def charEncoding : Encoding where
  encode s := s.data.map Char.toNat
  decode l := String.mk (l.map Char.ofNat)

/-- Metadata mapping attached to a document (`Dict[str, Any]` in the
source, restricted to string scalars per the spec's data-model note). -/
abbrev Metadata := List (String × String)

/-- The vector-index payload written per chunk by
`RetrievalService.add_document`: document id, chunk ordinal, chunk text
and the document's metadata. -/
structure Payload where
  doc_id : String
  chunk_index : Nat
  content : String
  metadata : Metadata
deriving DecidableEq

/-- A record of the external vector index: the index's own id, the stored
vector and its payload. -/
structure StoredPoint where
  id : Nat
  vector : List Rat
  payload : Payload
deriving DecidableEq

/-- A search hit as returned by `QdrantDatabase.search`:
`{id, score, payload}`. -/
structure Hit where
  id : Nat
  score : Rat
  payload : Payload
deriving DecidableEq

/-- Descending-score order on hits. -/
def scoreGE (a b : Hit) : Prop := b.score ≤ a.score

instance : DecidableRel scoreGE := fun a b =>
  inferInstanceAs (Decidable (b.score ≤ a.score))

instance : IsTotal Hit scoreGE := ⟨fun a b => le_total b.score a.score⟩

instance : IsTrans Hit scoreGE := ⟨fun _ _ _ hab hbc => le_trans hbc hab⟩

/-- Embedding of `QdrantDatabase.search`.  The external nearest-neighbour
query (`client.query_points` with `limit`, `score_threshold` defaulting to
`0.7`, similarity scores modelled as rationals) follows the collaborator
contract of the spec: score every stored vector against the query vector
with the index's similarity metric `sim`, exclude hits below the
threshold, order descending by score and return at most `limit` hits, each
mapped to `{id, score, payload}` exactly as the source does. -/
def QdrantDatabase.search (store : List StoredPoint)
    (sim : List Rat → List Rat → Rat) (query_vector : List Rat)
    (limit : Nat) (score_threshold : Rat := 7 / 10) : List Hit :=
  (List.insertionSort scoreGE
    ((store.map fun p =>
      Hit.mk p.id (sim p.vector query_vector) p.payload).filter
        fun h => score_threshold ≤ h.score)).take limit

/-- Embedding of `RetrievalService.retrieve_relevant_context`: resolve
`top_k` by Python default-or (`top_k or settings.TOP_K_RESULTS`), embed
the query through the external embedding service, and search the vector
index with the resolved limit. -/
def RetrievalService.retrieve_relevant_context (store : List StoredPoint)
    (sim : List Rat → List Rat → Rat) (get_embedding : String → List Rat)
    (query : String) (top_k : Option Nat := none) : List Hit :=
  let k := pyOr top_k settings.TOP_K_RESULTS
  let query_embedding := get_embedding query
  QdrantDatabase.search store sim query_embedding k

/-- Embedding of `QdrantDatabase.add_vectors`: upsert one point per
(vector, payload) pair into the collection (Python `zip` truncates to the
shorter list); the per-point uuids of the source do not influence the
stored vector/payload pairs and are omitted. -/
def QdrantDatabase.add_vectors (vectors : List (List Rat))
    (payloads : List Payload) (index : List (List Rat × Payload)) :
    List (List Rat × Payload) :=
  index ++ vectors.zip payloads

/-- The payload list built by the comprehension in
`RetrievalService.add_document`: document id, chunk ordinal, chunk text
and a per-chunk copy of the document's metadata (`metadata or {}`). -/
def mkPayloads (doc_id : String) (chunks : List String)
    (metadata : Option Metadata) : List Payload :=
  chunks.enum.map fun ic => ⟨doc_id, ic.1, ic.2, metadata.getD []⟩

/-- Embedding of `RetrievalService.add_document`.  The document store
write (`mongo_db.add_document`) and the embedding service
(`embedding_service.get_embeddings`, whose module is not present in the
source tree) are external collaborators represented by the outcome of this
call; a raised error in any step propagates, aborting the remaining steps,
so the vector index (threaded as explicit state) is written only in the
final step. -/
def RetrievalService.add_document (mongo_add : Except String String)
    (get_embeddings : List String → Except String (List (List Rat)))
    (content : String) (metadata : Option Metadata)
    (index : List (List Rat × Payload)) :
    Except String String × List (List Rat × Payload) :=
  match mongo_add with
  | .error e => (.error e, index)
  | .ok doc_id =>
    match chunk_text content with
    | .error e => (.error e, index)
    | .ok chunks =>
      match get_embeddings chunks with
      | .error e => (.error e, index)
      | .ok embeddings =>
        (.ok doc_id,
          QdrantDatabase.add_vectors embeddings
            (mkPayloads doc_id chunks metadata) index)

/-- Embedding of `RetrievalService.get_context_string`: join the hits'
chunk texts with a paragraph break and truncate the concatenation to the
configured maximum context token budget. -/
def RetrievalService.get_context_string (enc : Encoding)
    (results : List Hit) : String :=
  let context_parts := results.map fun r => r.payload.content
  let context := String.intercalate "\n\n" context_parts
  truncate_to_token_limit enc context settings.MAX_CONTEXT_LENGTH

/-- Arithmetic core of the `range` length formula: removing one step from
the distance removes exactly one element from the ceiling count. -/
theorem ceil_count_step (d s : Nat) (hs : 0 < s) (hd : 0 < d) :
    (d + s - 1) / s = (d - s + s - 1) / s + 1 := by
  rcases Nat.le_total d s with hle | hle
  · have h1 : d - s + s - 1 = s - 1 := by omega
    have h2 : (s - 1) / s = 0 := Nat.div_eq_of_lt (by omega)
    have h3 : (d + s - 1) / s = 1 := by
      apply Nat.div_eq_of_lt_le (by omega) (by omega)
    rw [h1, h2, h3]
  · have h1 : d - s + s - 1 = d - 1 := by omega
    have h2 : d + s - 1 = (d - 1) + s := by omega
    rw [h1, h2, Nat.add_div_right _ hs]

/-- With enough fuel, the Python range loop produces exactly the arithmetic
progression of length `⌈(stop - start) / step⌉`. -/
theorem pyRangeAux_eq_range' (stop step : Nat) (hs : 0 < step) :
    ∀ fuel start, stop - start ≤ fuel →
      pyRangeAux stop step start fuel =
        List.range' start ((stop - start + step - 1) / step) step := by
  intro fuel
  induction fuel with
  | zero =>
    intro start h
    have h0 : (stop - start + step - 1) / step = 0 :=
      Nat.div_eq_of_lt (by omega)
    rw [pyRangeAux, h0]
    rfl
  | succ n ih =>
    intro start h
    rw [pyRangeAux]
    by_cases hlt : start < stop
    · rw [if_pos hlt, ih (start + step) (by omega)]
      have hcount : (stop - start + step - 1) / step =
          (stop - (start + step) + step - 1) / step + 1 := by
        have := ceil_count_step (stop - start) step hs (by omega)
        have heq : stop - (start + step) = stop - start - step := by omega
        rw [heq]
        exact this
      rw [hcount, List.range'_succ]
    · rw [if_neg hlt]
      have h0 : (stop - start + step - 1) / step = 0 :=
        Nat.div_eq_of_lt (by omega)
      rw [h0]
      rfl

/-- `pyRange 0 n s` is the arithmetic progression `0, s, 2s, …` of length
`⌈n / s⌉` (for positive step `s`). -/
theorem pyRange_eq_range' (n s : Nat) (hs : 0 < s) :
    pyRange 0 n s = List.range' 0 ((n + s - 1) / s) s := by
  unfold pyRange
  simpa using pyRangeAux_eq_range' n s hs (n - 0) 0 (by omega)

/-- Every word produced by the splitter is non-empty (empty pieces are
never emitted). -/
theorem pySplitAux_ne_empty :
    ∀ (cs acc : List Char), ∀ w ∈ pySplitAux cs acc, w ≠ "" := by
  intro cs
  induction cs with
  | nil =>
    intro acc w hw
    rw [pySplitAux] at hw
    by_cases hacc : acc = []
    · rw [if_pos hacc] at hw
      exact absurd hw (List.not_mem_nil w)
    · rw [if_neg hacc] at hw
      rcases List.mem_singleton.mp hw with rfl
      intro hcon
      have : acc.reverse = [] := by
        simpa [String.ext_iff] using hcon
      exact hacc (by simpa using this)
  | cons c cs ih =>
    intro acc w hw
    rw [pySplitAux] at hw
    by_cases hws : c.isWhitespace
    · rw [if_pos hws] at hw
      by_cases hacc : acc = []
      · rw [if_pos hacc] at hw
        exact ih [] w hw
      · rw [if_neg hacc] at hw
        rcases List.mem_cons.mp hw with rfl | hmem
        · intro hcon
          have : acc.reverse = [] := by
            simpa [String.ext_iff] using hcon
          exact hacc (by simpa using this)
        · exact ih [] w hmem
    · rw [if_neg hws] at hw
      exact ih (c :: acc) w hw

theorem pySplit_ne_empty (text : String) : ∀ w ∈ pySplit text, w ≠ "" :=
  pySplitAux_ne_empty text.data []

/-- The accumulator of `String.intercalate.go` is a prefix of its result,
so the result is at least as long. -/
theorem intercalate_go_length (s : String) :
    ∀ (l : List String) (acc : String),
      acc.length ≤ (String.intercalate.go acc s l).length := by
  intro l
  induction l with
  | nil =>
    intro acc
    rw [String.intercalate.go]
  | cons a as ih =>
    intro acc
    rw [String.intercalate.go]
    calc acc.length ≤ (acc ++ s ++ a).length := by
          simp only [String.length_append]
          omega
      _ ≤ _ := ih (acc ++ s ++ a)

/-- Joining a non-empty list of non-empty strings yields a non-empty
string. -/
theorem intercalate_ne_empty (s : String) (l : List String) (hne : l ≠ [])
    (h : ∀ w ∈ l, w ≠ "") : String.intercalate s l ≠ "" := by
  match l, hne with
  | x :: xs, _ =>
    have hx : x ≠ "" := h x (List.mem_cons_self x xs)
    have hxlen : 0 < x.length := by
      rcases Nat.eq_zero_or_pos x.length with h0 | hpos
      · exact absurd (String.ext (List.eq_nil_of_length_eq_zero h0)) hx
      · exact hpos
    have hlen : x.length ≤ (String.intercalate s (x :: xs)).length :=
      intercalate_go_length s xs x
    intro hcon
    rw [hcon] at hlen
    have hz : ("" : String).length = 0 := rfl
    omega

theorem pyOr_some_pos (v d : Nat) (hv : 0 < v) : pyOr (some v) d = v := by
  show (if v = 0 then d else v) = v
  rw [if_neg (by omega)]

/-- Every index below the ceiling count addresses a word of the text:
`j < ⌈n / s⌉` implies `s * j < n`. -/
theorem mul_lt_of_lt_ceil (n s j : Nat) (hs : 0 < s)
    (hj : j < (n + s - 1) / s) : s * j < n := by
  have h1 : ((n + s - 1) / s) * s ≤ n + s - 1 := Nat.div_mul_le_self _ _
  have h3 : (j + 1) * s ≤ ((n + s - 1) / s) * s :=
    Nat.mul_le_mul_right s hj
  have hn : 0 < n := by
    by_contra h0
    have hn0 : n = 0 := by omega
    subst hn0
    have : (0 + s - 1) / s = 0 := Nat.div_eq_of_lt (by omega)
    omega
  have h4 : j * s + s ≤ n + s - 1 := by
    calc j * s + s = (j + 1) * s := by ring
      _ ≤ ((n + s - 1) / s) * s := h3
      _ ≤ n + s - 1 := h1
  have hcomm : s * j = j * s := Nat.mul_comm s j
  omega

/-- A window of the word list starting inside the list joins to a
non-empty chunk string. -/
theorem window_ne_empty (words : List String) (hw : ∀ w ∈ words, w ≠ "")
    (i W : Nat) (hiW : 0 < W) (hi : i < words.length) :
    String.intercalate " " ((words.drop i).take W) ≠ "" := by
  apply intercalate_ne_empty
  · have hlen : ((words.drop i).take W).length = min W (words.length - i) := by
      simp [List.length_take, List.length_drop]
    intro hcon
    rw [hcon] at hlen
    simp only [List.length_nil] at hlen
    omega
  · intro w hwmem
    exact hw w (List.mem_of_mem_drop (List.mem_of_mem_take hwmem))

/-- Structure of `chunk_text` for explicitly supplied positive window and
overlap with `overlap < window`: it succeeds and returns the join of every
word-window `words[i·(W−O) : i·(W−O)+W]`, one for each start index below
the word count, in start order; the emptiness filter of the source never
fires because every window is non-empty. -/
theorem chunk_text_eq_windows (text : String) (W O : Nat)
    (hO : 0 < O) (hOW : O < W) :
    chunk_text text (some W) (some O) =
      .ok ((List.range' 0
          (((pySplit text).length + (W - O) - 1) / (W - O)) (W - O)).map
        fun i => String.intercalate " " (((pySplit text).drop i).take W)) := by
  have hW : 0 < W := by omega
  simp only [chunk_text, pyOr_some_pos W settings.CHUNK_SIZE hW,
    pyOr_some_pos O settings.CHUNK_OVERLAP hO]
  have hstep0 : ¬ ((W : Int) - (O : Int) = 0) := by omega
  have hstepneg : ¬ ((W : Int) - (O : Int) < 0) := by omega
  rw [if_neg hstep0, if_neg hstepneg]
  have htonat : ((W : Int) - (O : Int)).toNat = W - O := by omega
  rw [htonat, pyRange_eq_range' _ _ (by omega)]
  congr 1
  apply List.filter_eq_self.mpr
  intro c hc
  rcases List.mem_map.mp hc with ⟨i, hi, rfl⟩
  rcases List.mem_range'.mp hi with ⟨j, hj, rfl⟩
  simp only [Nat.zero_add]
  apply decide_eq_true
  exact window_ne_empty _ (pySplit_ne_empty text) _ _ hW
    (mul_lt_of_lt_ceil _ _ _ (by omega) hj)

theorem drop_take_comm {α : Type} (l : List α) (s W : Nat) (hsW : s ≤ W) :
    (l.take W).drop s = (l.drop s).take (W - s) := by
  apply List.ext_getElem?
  intro n
  rw [List.getElem?_drop, List.getElem?_take, List.getElem?_take,
    List.getElem?_drop]
  by_cases h : s + n < W
  · rw [if_pos h, if_pos (by omega)]
  · rw [if_neg h, if_neg (by omega)]

theorem take_take_of_le {α : Type} (l : List α) (m n : Nat) (hmn : m ≤ n) :
    (l.take n).take m = l.take m := by
  apply List.ext_getElem?
  intro k
  by_cases h : k < m
  · simp [List.getElem?_take, h, Nat.lt_of_lt_of_le h hmn]
  · simp [List.getElem?_take, h]

/-- The words of window `i` past the step boundary are exactly the first
`W - s` words of window `i + 1`. -/
theorem window_overlap {α : Type} (words : List α) (i W s : Nat)
    (hsW : s ≤ W) :
    ((words.drop (i * s)).take W).drop s =
      (words.drop ((i + 1) * s)).take (W - s) := by
  rw [drop_take_comm _ s W hsW, List.drop_drop]
  have : i * s + s = (i + 1) * s := by ring
  rw [this]

/-- C1 counterexample: on the four-word text `"a b c d"` with window 5 and
overlap 3 the code produces two chunks (the degenerate trailing window
`"c d"` is fully contained in the first), while the claimed formula
`⌈max(n-O,0)/(W-O)⌉` predicts 1, and the claimed "fewer than W words gives
exactly one chunk" also predicts 1. -/
theorem C1_counterexample :
    chunk_text "a b c d" (some 5) (some 3) = .ok ["a b c d", "c d"] ∧
    (pySplit "a b c d").length < 5 ∧
    (["a b c d", "c d"] : List String).length ≠
      (max ((pySplit "a b c d").length - 3) 0 + (5 - 3) - 1) / (5 - 3) ∧
    (["a b c d", "c d"] : List String).length ≠ 1 := by
  refine ⟨by decide, by decide, by decide, by decide⟩

/-- C1 (amended): for any text and explicitly supplied window `W` and
overlap `O` with `0 < O < W` (an overlap supplied as `0` is replaced by the
configured default, see C10), `chunk_text` succeeds and the number of
chunks equals `⌈len(words(T)) / (W-O)⌉`; empty (or all-whitespace) input
yields an empty chunk sequence, and non-empty text with at most `W - O`
words yields exactly one chunk containing all of the text's words. -/
theorem C1_chunk_count (text : String) (W O : Nat)
    (hO : 0 < O) (hOW : O < W) :
    ∃ l, chunk_text text (some W) (some O) = .ok l ∧
      l.length = ((pySplit text).length + (W - O) - 1) / (W - O) ∧
      (pySplit text = [] → l = []) ∧
      (pySplit text ≠ [] → (pySplit text).length ≤ W - O →
        l = [String.intercalate " " (pySplit text)]) := by
  refine ⟨_, chunk_text_eq_windows text W O hO hOW, by simp, ?_, ?_⟩
  · intro hnil
    rw [hnil]
    have h0 : ((W - O) - 1) / (W - O) = 0 :=
      Nat.div_eq_of_lt (by omega)
    simp [h0]
  · intro hne hlen
    have hpos : 0 < (pySplit text).length := List.length_pos.mpr hne
    have h1 : ((pySplit text).length + (W - O) - 1) / (W - O) = 1 := by
      apply Nat.div_eq_of_lt_le (by omega) (by omega)
    rw [h1]
    have hr : List.range' 0 1 (W - O) = [0] := rfl
    rw [hr]
    simp only [List.map_cons, List.map_nil, List.drop_zero]
    rw [List.take_of_length_le (by omega)]

/-- C1 witness: a two-word text with window 3 and overlap 1 gives exactly
one chunk. -/
theorem C1_witness :
    ∃ l, chunk_text "a b" (some 3) (some 1) = .ok l ∧ l.length = 1 := by
  obtain ⟨l, h1, h2, -, -⟩ := C1_chunk_count "a b" 3 1 (by decide) (by decide)
  refine ⟨l, h1, ?_⟩
  rw [h2]
  decide

/-- C2 counterexample: with window 2 and an explicitly supplied overlap of
0, the code silently substitutes the configured default overlap 50, so the
step `2 - 50` is negative and no chunk at all is produced for the
three-word text `"a b c"` — while the claim (chunk `i` starts at word
`i·(W-O)`, stopping only once the start reaches the word count) predicts
the two chunks `["a b", "c"]`. -/
theorem C2_counterexample :
    chunk_text "a b c" (some 2) (some 0) = .ok [] ∧
    (Except.ok [] : Except String (List String)) ≠ .ok ["a b", "c"] := by
  refine ⟨by decide, by decide⟩

/-- C2 (amended): for any text and explicitly supplied window `W` and
overlap `O` with `0 < O < W` (an overlap supplied as `0` is replaced by the
configured default, see C10), chunk `i` is the join of the word-window
starting at word index `i·(W-O)` and containing at most `W` words, every
produced start index is below the total word count (iteration stops once
the start reaches or exceeds it, and no non-empty window is skipped: the
count is exactly `⌈n/(W-O)⌉`), and any full-size window shares exactly its
last `O` words with the first `O` words of the next window. -/
theorem C2_chunk_windows (text : String) (W O : Nat)
    (hO : 0 < O) (hOW : O < W) :
    ∃ l, chunk_text text (some W) (some O) = .ok l ∧
      l.length = ((pySplit text).length + (W - O) - 1) / (W - O) ∧
      (∀ i, (hi : i < l.length) →
        l.get ⟨i, hi⟩ =
          String.intercalate " "
            (((pySplit text).drop (i * (W - O))).take W) ∧
        (((pySplit text).drop (i * (W - O))).take W).length ≤ W ∧
        i * (W - O) < (pySplit text).length) ∧
      (∀ i, (((pySplit text).drop (i * (W - O))).take W).length = W →
        ((((pySplit text).drop (i * (W - O))).take W).drop (W - O)).length
            = O ∧
        (((pySplit text).drop (i * (W - O))).take W).drop (W - O) =
          (((pySplit text).drop ((i + 1) * (W - O))).take W).take O) := by
  refine ⟨_, chunk_text_eq_windows text W O hO hOW, by simp, ?_, ?_⟩
  · intro i hi
    have hil : i < (List.range' 0
        (((pySplit text).length + (W - O) - 1) / (W - O)) (W - O)).length := by
      simpa using hi
    have hcnt : i < ((pySplit text).length + (W - O) - 1) / (W - O) := by
      simpa using hil
    refine ⟨?_, List.length_take_le _ _, ?_⟩
    · rw [List.get_eq_getElem, List.getElem_map, List.getElem_range']
      rw [Nat.zero_add, Nat.mul_comm]
    · have hml := mul_lt_of_lt_ceil (pySplit text).length (W - O) i
        (by omega) hcnt
      have hc : i * (W - O) = (W - O) * i := Nat.mul_comm i (W - O)
      omega
  · intro i hfull
    constructor
    · rw [List.length_drop, hfull]
      omega
    · rw [window_overlap (pySplit text) i W (W - O) (by omega),
        take_take_of_le _ _ _ (by omega)]
      have hWO : W - (W - O) = O := by omega
      rw [hWO]

/-- C2 witness: on a five-word text with window 3 and overlap 1 the first
chunk is the join of the first three words, and the full-size first window
shares exactly its last word with the second window. -/
theorem C2_witness :
    ∃ l, chunk_text "v w x y z" (some 3) (some 1) = .ok l ∧
      (∃ h : 0 < l.length,
        l.get ⟨0, h⟩ =
          String.intercalate " " (((pySplit "v w x y z").drop 0).take 3)) ∧
      (((pySplit "v w x y z").drop 0).take 3).drop 2 =
        (((pySplit "v w x y z").drop 2).take 3).take 1 := by
  obtain ⟨l, h1, h2, h3, h4⟩ :=
    C2_chunk_windows "v w x y z" 3 1 (by decide) (by decide)
  have hlen : 0 < l.length := by
    rw [h2]
    decide
  obtain ⟨hget, -, -⟩ := h3 0 hlen
  refine ⟨l, h1, ⟨hlen, by simpa using hget⟩, ?_⟩
  have := (h4 0 (by decide)).2
  simpa using this

/-- C3: for every text and token budget `N`, the truncated text's token
count is at most `N`, and when the text already fits the budget it is
returned unchanged.  The tokenizer is external, so the theorem carries its
interface contract: re-encoding a decoded token sequence yields at most as
many tokens. -/
theorem C3_truncate_token_bound (enc : Encoding)
    (hre : ∀ l : List Nat, (enc.encode (enc.decode l)).length ≤ l.length)
    (text : String) (N : Nat) :
    count_tokens enc (truncate_to_token_limit enc text N) ≤ N ∧
    (count_tokens enc text ≤ N → truncate_to_token_limit enc text N = text)
    := by
  simp only [count_tokens, truncate_to_token_limit]
  by_cases h : (enc.encode text).length ≤ N
  · rw [if_pos h]
    exact ⟨h, fun _ => rfl⟩
  · rw [if_neg h]
    refine ⟨?_, fun hcon => absurd hcon h⟩
    calc (enc.encode (enc.decode ((enc.encode text).take N))).length
        ≤ ((enc.encode text).take N).length := hre _
      _ ≤ N := List.length_take_le _ _

theorem charEncoding_contract (l : List Nat) :
    (charEncoding.encode (charEncoding.decode l)).length ≤ l.length := by
  simp [charEncoding]

/-- C3 witness: the character encoding satisfies the tokenizer contract,
and an 11-character text truncated to 3 tokens has at most 3 tokens. -/
theorem C3_witness :
    count_tokens charEncoding
        (truncate_to_token_limit charEncoding "hello world" 3) ≤ 3 ∧
    (count_tokens charEncoding "hello world" ≤ 3 →
      truncate_to_token_limit charEncoding "hello world" 3 = "hello world")
    :=
  C3_truncate_token_bound charEncoding charEncoding_contract "hello world" 3

/-- C8: truncation is idempotent: truncating an already-truncated text
under the same budget returns it unchanged (under the same external
tokenizer contract as C3). -/
theorem C8_truncate_idempotent (enc : Encoding)
    (hre : ∀ l : List Nat, (enc.encode (enc.decode l)).length ≤ l.length)
    (text : String) (N : Nat) :
    truncate_to_token_limit enc (truncate_to_token_limit enc text N) N =
      truncate_to_token_limit enc text N := by
  by_cases h : (enc.encode text).length ≤ N
  · have h1 : truncate_to_token_limit enc text N = text := by
      simp only [truncate_to_token_limit]
      rw [if_pos h]
    rw [h1]
    exact h1
  · have h1 : truncate_to_token_limit enc text N =
        enc.decode ((enc.encode text).take N) := by
      simp only [truncate_to_token_limit]
      rw [if_neg h]
    have h2 : (enc.encode (enc.decode ((enc.encode text).take N))).length
        ≤ N := by
      calc (enc.encode (enc.decode ((enc.encode text).take N))).length
          ≤ ((enc.encode text).take N).length := hre _
        _ ≤ N := List.length_take_le _ _
    rw [h1]
    simp only [truncate_to_token_limit]
    rw [if_pos h2]

/-- C8 witness: idempotence at a concrete text and budget under the
character encoding. -/
theorem C8_witness :
    truncate_to_token_limit charEncoding
        (truncate_to_token_limit charEncoding "hello world" 3) 3 =
      truncate_to_token_limit charEncoding "hello world" 3 :=
  C8_truncate_idempotent charEncoding charEncoding_contract "hello world" 3

/-- C4 counterexample: with `top_k = 0` explicitly supplied, the code does
not use the caller-supplied limit 0 but silently substitutes the
configured default 5, so a one-point store above threshold yields one
result where the claim ("the caller-supplied value when one is given")
allows at most zero. -/
theorem C4_counterexample :
    (RetrievalService.retrieve_relevant_context
        [⟨1, [1], ⟨"d", 0, "hello", []⟩⟩] (fun _ _ => 1) (fun _ => [1])
        "q" (some 0)).length = 1 ∧ ¬ ((1 : Nat) ≤ 0) := by
  refine ⟨?_, by decide⟩
  simp [RetrievalService.retrieve_relevant_context, QdrantDatabase.search,
    pyOr, List.filter_cons]
  norm_num
  decide

/-- C4 (amended): retrieval resolves the result limit to the
caller-supplied value when a positive one is given and to the configured
default otherwise (a caller-supplied 0 is replaced by the default, see
C10), and returns at most that many hits, in descending similarity order,
each with score at least the minimum similarity threshold `0.7` — so
fewer than `top_k` results, including zero, may be returned. -/
theorem C4_retrieve_spec (store : List StoredPoint)
    (sim : List Rat → List Rat → Rat) (get_embedding : String → List Rat)
    (query : String) (top_k : Option Nat) :
    (RetrievalService.retrieve_relevant_context store sim get_embedding
        query top_k).length ≤ pyOr top_k settings.TOP_K_RESULTS ∧
    List.Sorted scoreGE (RetrievalService.retrieve_relevant_context store
      sim get_embedding query top_k) ∧
    (∀ h ∈ RetrievalService.retrieve_relevant_context store sim
        get_embedding query top_k, 7 / 10 ≤ h.score) ∧
    (∀ v : Nat, 0 < v → pyOr (some v) settings.TOP_K_RESULTS = v) ∧
    pyOr none settings.TOP_K_RESULTS = settings.TOP_K_RESULTS := by
  refine ⟨?_, ?_, ?_, fun v hv => pyOr_some_pos v _ hv, rfl⟩
  · simp only [RetrievalService.retrieve_relevant_context,
      QdrantDatabase.search]
    rw [List.length_take]
    exact Nat.min_le_left _ _
  · exact List.Pairwise.sublist (List.take_sublist _ _)
      (List.sorted_insertionSort scoreGE _)
  · intro h hmem
    simp only [RetrievalService.retrieve_relevant_context,
      QdrantDatabase.search] at hmem
    have h1 := List.mem_of_mem_take hmem
    rw [List.mem_insertionSort] at h1
    exact of_decide_eq_true (List.mem_filter.mp h1).2

/-- C4 witness: the bound instantiated at a concrete store and an omitted
`top_k`. -/
theorem C4_witness :
    (RetrievalService.retrieve_relevant_context
        [⟨1, [1], ⟨"d", 0, "hello", []⟩⟩] (fun _ _ => 1) (fun _ => [1])
        "q" none).length ≤ pyOr none settings.TOP_K_RESULTS :=
  (C4_retrieve_spec _ _ _ _ _).1

/-- C5: evaluation of the code at the configurations the claim says must
be rejected eagerly.  Chunking with overlap 3 > window 2 silently returns
an empty chunk list (every word of the text is dropped, no error);
chunking with overlap = window raises only a bare `ValueError` from
`range` (no `ConfigurationError`, and only because the step happens to be
zero); retrieval with non-positive `top_k = 0` is not rejected — it is
executed with the default limit 5 and returns results. -/
theorem C5_no_config_validation :
    chunk_text "a b c" (some 2) (some 3) = .ok [] ∧
    chunk_text "a b c" (some 2) (some 2) =
      .error "ValueError: range() arg 3 must not be zero" ∧
    (RetrievalService.retrieve_relevant_context
        [⟨2, [1], ⟨"e", 1, "text", []⟩⟩] (fun _ _ => 1) (fun _ => [1])
        "q" (some 0)).length = 1 := by
  refine ⟨by decide, by decide, ?_⟩
  simp [RetrievalService.retrieve_relevant_context, QdrantDatabase.search,
    pyOr, List.filter_cons]
  norm_num
  decide

/-- C6: `add_document` is all-or-nothing at document granularity: a
document-store failure aborts the whole operation before any index write,
an embedding failure aborts before any index write, and in every case the
vector index is either untouched or the operation succeeded outright —
never a partial write. -/
theorem C6_all_or_nothing (mongo_add : Except String String)
    (get_embeddings : List String → Except String (List (List Rat)))
    (content : String) (metadata : Option Metadata)
    (index : List (List Rat × Payload)) :
    (∀ e, mongo_add = .error e →
      RetrievalService.add_document mongo_add get_embeddings content
        metadata index = (.error e, index)) ∧
    (∀ doc_id chunks e, mongo_add = .ok doc_id →
      chunk_text content = .ok chunks →
      get_embeddings chunks = .error e →
      RetrievalService.add_document mongo_add get_embeddings content
        metadata index = (.error e, index)) ∧
    ((RetrievalService.add_document mongo_add get_embeddings content
        metadata index).2 = index ∨
      ∃ doc_id, (RetrievalService.add_document mongo_add get_embeddings
        content metadata index).1 = .ok doc_id) := by
  refine ⟨?_, ?_, ?_⟩
  · intro e he
    subst he
    rfl
  · intro doc_id chunks e hm hc hemb
    subst hm
    simp only [RetrievalService.add_document, hc, hemb]
  · rcases hm : mongo_add with e | doc_id
    · left
      simp [RetrievalService.add_document]
    · rcases hc : chunk_text content with e | chunks
      · left
        simp [RetrievalService.add_document, hc]
      · rcases hemb : get_embeddings chunks with e | embeddings
        · left
          simp [RetrievalService.add_document, hc, hemb]
        · right
          exact ⟨doc_id, by simp [RetrievalService.add_document, hc, hemb]⟩

/-- C6 witness: a failing document-store write leaves the vector index
empty and surfaces the error. -/
theorem C6_witness :
    RetrievalService.add_document (.error "mongo down")
        (fun _ => .ok []) "some text" none [] = (.error "mongo down", []) :=
  (C6_all_or_nothing _ _ _ _ _).1 "mongo down" rfl

/-- C7: on a successful ingest, exactly one record is written per chunk
(given the embedder's contract of one vector per input), appended in chunk
order to the vector index; the payload of record `i` carries the document
id returned by the document store, the chunk ordinal `i`, the text of
chunk `i`, and a per-chunk copy of the document's metadata; the operation
returns the document id. -/
theorem C7_one_record_per_chunk (mongo_add : Except String String)
    (get_embeddings : List String → Except String (List (List Rat)))
    (content : String) (metadata : Option Metadata)
    (index : List (List Rat × Payload))
    (doc_id : String) (chunks : List String)
    (embeddings : List (List Rat))
    (hm : mongo_add = .ok doc_id)
    (hc : chunk_text content = .ok chunks)
    (he : get_embeddings chunks = .ok embeddings)
    (hlen : embeddings.length = chunks.length) :
    (RetrievalService.add_document mongo_add get_embeddings content
        metadata index).1 = .ok doc_id ∧
    (RetrievalService.add_document mongo_add get_embeddings content
        metadata index).2 =
      index ++ embeddings.zip (mkPayloads doc_id chunks metadata) ∧
    (embeddings.zip (mkPayloads doc_id chunks metadata)).length =
      chunks.length ∧
    (∀ i : Nat, (mkPayloads doc_id chunks metadata)[i]? =
      (chunks[i]?).map fun t => ⟨doc_id, i, t, metadata.getD []⟩) := by
  subst hm
  refine ⟨?_, ?_, ?_, ?_⟩
  · simp [RetrievalService.add_document, hc, he]
  · simp [RetrievalService.add_document, hc, he,
      QdrantDatabase.add_vectors]
  · rw [List.length_zip]
    have h1 : (mkPayloads doc_id chunks metadata).length = chunks.length := by
      simp [mkPayloads]
    omega
  · intro i
    simp [mkPayloads, List.getElem?_map, List.getElem?_enum,
      Option.map_map]
    rfl

/-- C7 witness: ingesting the two-word document `"a b"` (one chunk under
the default window) writes exactly the one expected record. -/
theorem C7_witness :
    (RetrievalService.add_document (.ok "doc1")
        (fun c => .ok (c.map fun _ => ([1] : List Rat))) "a b" none []).2 =
      [] ++ [([1] : List Rat)].zip (mkPayloads "doc1" ["a b"] none) :=
  (C7_one_record_per_chunk _ _ _ _ _ "doc1" ["a b"] [[1]] rfl (by decide)
    rfl rfl).2.1

/-- C9: `get_context_string` applied to an empty result sequence returns
empty text (it is a total function of its inputs, so it cannot raise); the
only tokenizer fact used is that empty text encodes to no tokens. -/
theorem C9_empty_results (enc : Encoding) (henc : enc.encode "" = []) :
    RetrievalService.get_context_string enc [] = "" := by
  simp only [RetrievalService.get_context_string, List.map_nil]
  have h : String.intercalate "\n\n" [] = "" := rfl
  rw [h]
  simp only [truncate_to_token_limit, henc]
  rw [if_pos (by simp)]

/-- C9 witness: the empty-result case evaluated under the character
encoding. -/
theorem C9_witness :
    RetrievalService.get_context_string charEncoding [] = "" :=
  C9_empty_results charEncoding rfl

/-- C10: optional numeric parameters supplied as `0` are silently replaced
by the configured defaults — chunking with an explicit overlap of 0 is
identical to chunking with the default overlap (50), and retrieval with an
explicit `top_k` of 0 is identical to retrieval with the default top-k
(5). -/
theorem C10_zero_means_default :
    (∀ (text : String) (cs : Option Nat),
      chunk_text text cs (some 0) = chunk_text text cs none) ∧
    (∀ (store : List StoredPoint) (sim : List Rat → List Rat → Rat)
      (emb : String → List Rat) (q : String),
      RetrievalService.retrieve_relevant_context store sim emb q (some 0) =
        RetrievalService.retrieve_relevant_context store sim emb q none) ∧
    pyOr (some 0) settings.CHUNK_OVERLAP = settings.CHUNK_OVERLAP ∧
    pyOr (some 0) settings.TOP_K_RESULTS = settings.TOP_K_RESULTS := by
  refine ⟨fun text cs => rfl, fun store sim emb q => rfl, rfl, rfl⟩

end Shivohm
